import Mathlib

/-!
Shallow embedding of the FreeKG signal-processing pipeline
(`src/audio-processor.js`, first revision of the `AudioProcessor` class,
whose line numbers are cited below; the second revision is embedded only
where a claim references it).  JS numbers are modelled as exact rationals,
array indices as naturals, and the byte buffer of the WAV encoder as a
list of naturals in 0..255.
-/

namespace FreeKG

/-- JS `Math.round`: rounds to the nearest integer, halves toward positive
infinity. -/
def jsRound (q : ℚ) : ℤ := ⌊q + 1/2⌋

/-- Truncation toward zero, as ECMAScript `ToInt16` applies to the value
stored by `DataView.setInt16` (source line 155). -/
def jsTrunc (q : ℚ) : ℤ := if q < 0 then ⌈q⌉ else ⌊q⌋

/-- Normalizer of revision 1 (lines 198-200): every recorded sample is a JS
number (Float32 data from `getChannelData`), so the
`typeof val === 'number'` test succeeds on each element and the map passes
the sample through unchanged. -/
def normalizeFloat (data : List ℚ) : List ℚ := data.map (fun v => v)

/-- Normalizer of revision 2 (line 400): Uint8 samples (0..255) are mapped
by `(val - 128) / 128`. -/
def normalizeU8 (data : List ℕ) : List ℚ := data.map (fun v : ℕ => ((v : ℚ) - 128) / 128)

/-- Inner loop of `bandpassFilter` (lines 210-213): starting from
`sum = 0, count = 0`, accumulate `sum += normalized[j]; count++` for
`len` consecutive indices `j = lo, lo+1, ...`. -/
def windowAccum (normalized : List ℚ) (lo len : ℕ) : ℚ × ℕ :=
  (List.range len).foldl (fun acc k => (acc.1 + normalized.getD (lo + k) 0, acc.2 + 1)) (0, 0)

/-- Body of the smoothing loop (lines 206-215): the window runs from
`max(0, i - windowSize)` (natural subtraction `i - windowSize` below) to
`min(n - 1, i + windowSize)` inclusive, and the entry pushed is
`sum / count`. -/
def smoothAt (windowSize : ℕ) (normalized : List ℚ) (i : ℕ) : ℚ :=
  let lo := i - windowSize
  let hi := min (normalized.length - 1) (i + windowSize)
  let sc := windowAccum normalized lo (hi + 1 - lo)
  sc.1 / (sc.2 : ℚ)

/-- The moving-average smoothing pass of `bandpassFilter`
(lines 203-218), parameterized by the window half-width. -/
def smoothLoop (windowSize : ℕ) (normalized : List ℚ) : List ℚ :=
  (List.range normalized.length).map (smoothAt windowSize normalized)

/-- `bandpassFilter` (lines 196-219): normalization followed by the
moving average with the source's `windowSize = 20`. -/
def bandpassFilter (data : List ℚ) : List ℚ := smoothLoop 20 (normalizeFloat data)

/-- `minDistance` of `findPeaks` (line 268): `Math.floor(sampleRate / 10)`,
i.e. natural division. -/
def minDistance (sampleRate : ℕ) : ℕ := sampleRate / 10

/-- Peak amplitude threshold (line 267): `0.01`. -/
def threshold : ℚ := 1/100

/-- Acceptance test of `findPeaks` (lines 275-277): a qualifying candidate
is appended when the peaks list is empty or
`i - peaks[peaks.length - 1] > minDistance` (JS subtraction, hence the
integer cast). -/
def acceptStep (minDist : ℕ) (peaks : List ℕ) (i : ℕ) : List ℕ :=
  if peaks = [] ∨ (i : ℤ) - (peaks.getLastD 0 : ℤ) > (minDist : ℤ) then peaks ++ [i]
  else peaks

/-- One iteration of the `findPeaks` scan (lines 271-278): the candidate
test (three strict comparisons) guards the acceptance test. -/
def peakStep (data : List ℚ) (minDist : ℕ) (peaks : List ℕ) (i : ℕ) : List ℕ :=
  if data.getD i 0 > data.getD (i - 1) 0 ∧ data.getD i 0 > data.getD (i + 1) 0 ∧
      data.getD i 0 > threshold then
    acceptStep minDist peaks i
  else peaks

/-- `findPeaks` (lines 265-282): left-to-right scan over
`i = 1, ..., data.length - 2` (the JS loop `for (i = 1; i < data.length - 1; i++)`
performs `data.length - 1 - 1` iterations starting at 1). -/
def findPeaks (sampleRate : ℕ) (data : List ℚ) : List ℕ :=
  (List.range' 1 (data.length - 1 - 1)).foldl (peakStep data (minDistance sampleRate)) []

/-- Intervals between consecutive peaks (lines 237-240):
`intervals.push(peaks[i] - peaks[i - 1])` for `i = 1, ..., peaks.length - 1`
(JS subtraction, hence integers). -/
def intervalsOf (peaks : List ℕ) : List ℤ :=
  (List.range (peaks.length - 1)).map (fun k => (peaks.getD (k + 1) 0 : ℤ) - (peaks.getD k 0 : ℤ))

/-- Average interval (line 243): `intervals.reduce((a, b) => a + b, 0) / intervals.length`. -/
def avgIntervalOf (peaks : List ℕ) : ℚ :=
  ((intervalsOf peaks).sum : ℚ) / ((intervalsOf peaks).length : ℚ)

/-- Raw BPM (line 246): `Math.round((60 * this.sampleRate) / avgInterval)`. -/
def rawBpmOf (sampleRate : ℕ) (peaks : List ℕ) : ℤ :=
  jsRound ((60 * (sampleRate : ℚ)) / avgIntervalOf peaks)

/-- Confidence tag of the detection result. -/
inductive Confidence where
  | low
  | medium
  | high
deriving DecidableEq, Repr

/-- `DetectionResult` (lines 233 and 254-259).  The early return of
line 233 carries no `waveform` property (it is `undefined` in JS), so the
field is an `Option`. -/
structure DetectionResult where
  bpm : ℤ
  confidence : Confidence
  peaks : List ℕ
  waveform : Option (List ℚ)
deriving DecidableEq, Repr

/-- `detectHeartRate` (lines 224-260).  The division by `avgInterval` on
line 246 is embedded behind an explicit zero guard so that the
division-by-zero branch is visible; JS itself would produce `Infinity`
there. -/
def detectHeartRate (sampleRate : ℕ) (data : List ℚ) : Except String DetectionResult :=
  let filtered := bandpassFilter data
  let peaks := findPeaks sampleRate filtered
  if peaks.length < 2 then
    Except.ok ⟨0, Confidence.low, [], none⟩
  else if avgIntervalOf peaks = 0 then
    Except.error "average interval is zero"
  else
    let bpm := rawBpmOf sampleRate peaks
    Except.ok ⟨max 40 (min 200 bpm),
      if 40 ≤ bpm ∧ bpm ≤ 200 then Confidence.high else Confidence.low,
      peaks, some filtered⟩

/-- Projects the payload out of a successful pipeline run. -/
def okResult : Except String DetectionResult → Option DetectionResult
  | Except.ok r => some r
  | Except.error _ => none

/-- Sequential byte writes of a `DataView`: `setBytes buf off bs` stores the
bytes `bs` at consecutive positions `off, off+1, ...` of `buf`. -/
def setBytes (buf : List ℕ) (off : ℕ) (bs : List ℕ) : List ℕ :=
  match bs with
  | [] => buf
  | b :: rest => setBytes (buf.set off b) (off + 1) rest

/-- Little-endian bytes of `DataView.setUint16` (ToUint16 then two bytes). -/
def u16le (v : ℕ) : List ℕ := [v % 2 ^ 16 % 2 ^ 8, v % 2 ^ 16 / 2 ^ 8]

/-- Little-endian bytes of `DataView.setUint32` (ToUint32 then four bytes). -/
def u32le (v : ℕ) : List ℕ :=
  [v % 2 ^ 32 % 2 ^ 8, v % 2 ^ 32 / 2 ^ 8 % 2 ^ 8,
   v % 2 ^ 32 / 2 ^ 16 % 2 ^ 8, v % 2 ^ 32 / 2 ^ 24 % 2 ^ 8]

/-- Little-endian bytes of `DataView.setInt16`: the integer is reduced
mod 2^16 and stored as two raw bytes. -/
def i16le (v : ℤ) : List ℕ := [(v % 2 ^ 16).toNat % 2 ^ 8, (v % 2 ^ 16).toNat / 2 ^ 8]

/-- Clamp of line 155: `Math.max(-1, Math.min(1, samples[i]))`. -/
def wavClamp (s : ℚ) : ℚ := max (-1) (min 1 s)

/-- The sample bytes written on line 155:
`view.setInt16(offset, Math.max(-1, Math.min(1, samples[i])) * 0x7FFF, true)`;
ECMAScript `ToInt16` truncates the product toward zero. -/
def wavSampleBytes (s : ℚ) : List ℕ := i16le (jsTrunc (wavClamp s * 32767))

/-- The sample loop of `encodeWAV` (lines 153-157): starting at offset 44,
write the two bytes of each converted sample and advance the offset by 2. -/
def wavSampleLoop (samples : List ℚ) (buf : List ℕ) (off : ℕ) : List ℕ :=
  match samples with
  | [] => buf
  | s :: rest => wavSampleLoop rest (setBytes buf off (wavSampleBytes s)) (off + 2)

/-- `encodeWAV` (lines 129-160): a zero-initialized buffer of
`44 + samples.length * 2` bytes receives the header fields at their fixed
offsets, then the converted samples from offset 44. -/
def encodeWAV (samples : List ℚ) (sampleRate : ℕ) : List ℕ :=
  let buf0 := List.replicate (44 + samples.length * 2) 0
  let b1 := setBytes buf0 0 [82, 73, 70, 70]
  let b2 := setBytes b1 4 (u32le (36 + samples.length * 2))
  let b3 := setBytes b2 8 [87, 65, 86, 69]
  let b4 := setBytes b3 12 [102, 109, 116, 32]
  let b5 := setBytes b4 16 (u32le 16)
  let b6 := setBytes b5 20 (u16le 1)
  let b7 := setBytes b6 22 (u16le 1)
  let b8 := setBytes b7 24 (u32le sampleRate)
  let b9 := setBytes b8 28 (u32le (sampleRate * 2))
  let b10 := setBytes b9 32 (u16le 2)
  let b11 := setBytes b10 34 (u16le 16)
  let b12 := setBytes b11 36 [100, 97, 116, 97]
  let b13 := setBytes b12 40 (u32le (samples.length * 2))
  wavSampleLoop samples b13 44

/-- Modelled from the spec's words for the debug-export byte layout: the
44-byte header (`RIFF` size tag, `WAVE`, `fmt ` sub-chunk for mono PCM at
the given rate, 16-bit depth, `data` sub-chunk). -/
def wavHeaderSpec (numSamples sampleRate : ℕ) : List ℕ :=
  [82, 73, 70, 70] ++ u32le (36 + numSamples * 2) ++ [87, 65, 86, 69] ++
  [102, 109, 116, 32] ++ u32le 16 ++ u16le 1 ++ u16le 1 ++ u32le sampleRate ++
  u32le (sampleRate * 2) ++ u16le 2 ++ u16le 16 ++ [100, 97, 116, 97] ++
  u32le (numSamples * 2)

/-- Modelled from the claim's words: header followed by one little-endian
16-bit integer per sample, computed as `round(clamp(sample, -1, 1) * 32767)`. -/
def encodeWAVSpecRound (samples : List ℚ) (sampleRate : ℕ) : List ℕ :=
  wavHeaderSpec samples.length sampleRate ++
    samples.flatMap (fun s => i16le (jsRound (wavClamp s * 32767)))

/-- The claim's layout amended to the code's conversion: the stored 16-bit
integer is `truncate(clamp(sample, -1, 1) * 32767)` (toward zero), as
ECMAScript `ToInt16` performs. -/
def encodeWAVSpecTrunc (samples : List ℚ) (sampleRate : ℕ) : List ℕ :=
  wavHeaderSpec samples.length sampleRate ++
    samples.flatMap (fun s => i16le (jsTrunc (wavClamp s * 32767)))

/-! ## Helper lemmas on the smoothing filter -/

theorem windowAccum_spec (xs : List ℚ) (lo len : ℕ) :
    windowAccum xs lo len = (∑ k in Finset.range len, xs.getD (lo + k) 0, len) := by
  induction len with
  | zero => simp [windowAccum]
  | succ n ih =>
      simp only [windowAccum, List.range_succ, List.foldl_append, List.foldl_cons,
        List.foldl_nil] at ih ⊢
      rw [ih]
      simp [Finset.sum_range_succ]

theorem smoothLoop_length (W : ℕ) (xs : List ℚ) : (smoothLoop W xs).length = xs.length := by
  simp [smoothLoop]

theorem smoothLoop_getD (W : ℕ) (xs : List ℚ) (i : ℕ) (hi : i < xs.length) :
    (smoothLoop W xs).getD i 0 =
      (∑ j in Finset.Icc (i - W) (min (xs.length - 1) (i + W)), xs.getD j 0) /
        ((Finset.Icc (i - W) (min (xs.length - 1) (i + W))).card : ℚ) := by
  have hlen : i < (smoothLoop W xs).length := by rw [smoothLoop_length]; exact hi
  rw [List.getD_eq_getElem _ _ hlen]
  simp only [smoothLoop, List.getElem_map, List.getElem_range]
  rw [smoothAt, windowAccum_spec]
  rw [← Nat.Ico_succ_right, Finset.sum_Ico_eq_sum_range, Nat.card_Ico]

theorem smooth_window_bounds (W : ℕ) (xs : List ℚ) (i : ℕ) (hi : i < xs.length) :
    i - W ≤ i ∧ i ≤ min (xs.length - 1) (i + W) := by
  refine ⟨Nat.sub_le i W, le_min ?_ (Nat.le_add_right i W)⟩
  omega

/-! ## Helper lemmas on the peak detector -/

theorem acceptStep_chain (md : ℕ) (peaks : List ℕ) (i : ℕ)
    (h : List.Chain' (fun a b => a < b ∧ md < b - a) peaks) :
    List.Chain' (fun a b => a < b ∧ md < b - a) (acceptStep md peaks i) := by
  rw [acceptStep]
  split
  case isFalse => exact h
  case isTrue hcond =>
    cases peaks with
    | nil => simp
    | cons p ps =>
        rcases hcond with hnil | hgt
        · exact absurd hnil (List.cons_ne_nil p ps)
        · rw [List.chain'_append]
          refine ⟨h, List.chain'_singleton i, ?_⟩
          intro x hx y hy
          simp only [List.head?_cons, Option.mem_def, Option.some.injEq] at hy
          subst hy
          have hx2 : (p :: ps).getLastD 0 = x := by
            rw [List.getLastD_eq_getLast?, Option.mem_def.mp hx]
            rfl
          rw [hx2] at hgt
          constructor <;> omega

theorem peakStep_chain (data : List ℚ) (md : ℕ) (peaks : List ℕ) (i : ℕ)
    (h : List.Chain' (fun a b => a < b ∧ md < b - a) peaks) :
    List.Chain' (fun a b => a < b ∧ md < b - a) (peakStep data md peaks i) := by
  rw [peakStep]
  split
  · exact acceptStep_chain md peaks i h
  · exact h

theorem foldl_peakStep_chain (data : List ℚ) (md : ℕ) :
    ∀ (l : List ℕ) (acc : List ℕ),
      List.Chain' (fun a b => a < b ∧ md < b - a) acc →
      List.Chain' (fun a b => a < b ∧ md < b - a) (l.foldl (peakStep data md) acc) := by
  intro l
  induction l with
  | nil => intro acc h; exact h
  | cons x xs ih =>
      intro acc h
      rw [List.foldl_cons]
      exact ih _ (peakStep_chain data md acc x h)

theorem findPeaks_chain (sampleRate : ℕ) (data : List ℚ) :
    List.Chain' (fun a b => a < b ∧ minDistance sampleRate < b - a)
      (findPeaks sampleRate data) := by
  rw [findPeaks]
  exact foldl_peakStep_chain data (minDistance sampleRate) _ [] List.chain'_nil

theorem foldl_ite_filter {α β : Type} (p : α → Bool) (g : β → α → β) :
    ∀ (l : List α) (acc : β),
      l.foldl (fun acc x => if p x then g acc x else acc) acc = (l.filter p).foldl g acc := by
  intro l
  induction l with
  | nil => intro acc; rfl
  | cons x xs ih =>
      intro acc
      by_cases h : p x <;> simp [List.filter_cons, h, ih]

/-! ## Helper lemmas on the intervals of the rate estimator -/

theorem intervalsOf_eq_zipWith :
    ∀ l : List ℕ, intervalsOf l = List.zipWith (fun a b : ℕ => (b : ℤ) - (a : ℤ)) l l.tail := by
  intro l
  induction l with
  | nil => simp [intervalsOf]
  | cons a t ih =>
      cases t with
      | nil => simp [intervalsOf]
      | cons b t' =>
          simp only [intervalsOf, List.length_cons, Nat.add_sub_cancel,
            List.range_succ_eq_map, List.map_cons, List.map_map, List.getD_cons_succ,
            List.getD_cons_zero, List.tail_cons, List.zipWith_cons_cons] at ih ⊢
          rw [← ih]
          rfl

theorem intervals_length (l : List ℕ) : (intervalsOf l).length = l.length - 1 := by
  simp [intervalsOf]

theorem zipWith_sub_pos :
    ∀ l : List ℕ, List.Chain' (· < ·) l →
      ∀ x ∈ List.zipWith (fun a b : ℕ => (b : ℤ) - (a : ℤ)) l l.tail, 0 < x := by
  intro l
  induction l with
  | nil => intro _ x hx; simp at hx
  | cons a t ih =>
      cases t with
      | nil => intro _ x hx; simp at hx
      | cons b t' =>
          intro hc x hx
          rw [List.chain'_cons] at hc
          simp only [List.tail_cons, List.zipWith_cons_cons, List.mem_cons] at hx
          rcases hx with rfl | hx
          · have : a < b := hc.1
            omega
          · exact ih hc.2 x (by simpa using hx)

theorem zip_sum_cast :
    ∀ l : List ℕ,
      (((List.zipWith (fun a b : ℕ => (b : ℤ) - (a : ℤ)) l l.tail).sum : ℤ) : ℚ) =
        (List.zipWith (fun a b : ℕ => ((b : ℚ) - (a : ℚ))) l l.tail).sum := by
  intro l
  induction l with
  | nil => simp
  | cons a t ih =>
      cases t with
      | nil => simp
      | cons b t' =>
          simp only [List.tail_cons, List.zipWith_cons_cons, List.sum_cons] at ih ⊢
          rw [Int.cast_add, ih]
          congr 1
          push_cast
          rfl

/-! ## Helper lemmas on byte-buffer writes -/

theorem set_append_length (b : ℕ) :
    ∀ (pre post : List ℕ), (pre ++ post).set pre.length b = pre ++ post.set 0 b := by
  intro pre
  induction pre with
  | nil => intro post; rfl
  | cons p ps ih =>
      intro post
      rw [List.cons_append, List.length_cons, List.set_cons_succ, ih]
      rfl

theorem setBytes_fill :
    ∀ (bs done rest : List ℕ), bs.length ≤ rest.length →
      setBytes (done ++ rest) done.length bs = (done ++ bs) ++ rest.drop bs.length := by
  intro bs
  induction bs with
  | nil => intro done rest h; simp [setBytes]
  | cons b bs ih =>
      intro done rest h
      cases rest with
      | nil => simp at h
      | cons r rs =>
          rw [setBytes, set_append_length, List.set_cons_zero]
          have hlen : done.length + 1 = (done ++ [b]).length := by simp
          have hsplit : done ++ b :: rs = (done ++ [b]) ++ rs := by simp
          rw [hsplit, hlen, ih (done ++ [b]) rs (by simpa using h)]
          simp

theorem setBytes_replicate_zero (bs : List ℕ) (m m' : ℕ)
    (hk : bs.length ≤ m) (hm : m - bs.length = m') :
    setBytes (List.replicate m 0) 0 bs = bs ++ List.replicate m' 0 := by
  have h := setBytes_fill bs [] (List.replicate m 0) (by simpa using hk)
  simpa [List.drop_replicate, hm] using h

theorem setBytes_replicate_step (done bs : List ℕ) (m m' off : ℕ)
    (hoff : done.length = off) (hk : bs.length ≤ m) (hm : m - bs.length = m') :
    setBytes (done ++ List.replicate m 0) off bs = (done ++ bs) ++ List.replicate m' 0 := by
  subst hoff
  have h := setBytes_fill bs done (List.replicate m 0) (by simpa using hk)
  simpa [List.drop_replicate, hm] using h

theorem wavSampleLoop_spec :
    ∀ (samples : List ℚ) (done : List ℕ) (off : ℕ), done.length = off →
      wavSampleLoop samples (done ++ List.replicate (samples.length * 2) 0) off =
        done ++ samples.flatMap wavSampleBytes := by
  intro samples
  induction samples with
  | nil => intro done off hoff; simp [wavSampleLoop]
  | cons s ss ih =>
      intro done off hoff
      have hm : (s :: ss).length * 2 = (ss.length * 2 + 1) + 1 := by
        simp [List.length_cons]
        ring
      rw [wavSampleLoop, hm]
      have hstep := setBytes_replicate_step done (wavSampleBytes s)
        (ss.length * 2 + 1 + 1) (ss.length * 2) off hoff
        (by simp only [wavSampleBytes, i16le, List.length_cons, List.length_nil]; omega)
        (by simp only [wavSampleBytes, i16le, List.length_cons, List.length_nil]; omega)
      rw [hstep]
      have hoff2 : (done ++ wavSampleBytes s).length = off + 2 := by
        simp [wavSampleBytes, i16le, hoff]
      rw [ih (done ++ wavSampleBytes s) (off + 2) hoff2, List.flatMap_cons]
      simp

theorem encodeWAV_eq_spec (samples : List ℚ) (sampleRate : ℕ) :
    encodeWAV samples sampleRate = encodeWAVSpecTrunc samples sampleRate := by
  simp only [encodeWAV]
  rw [setBytes_replicate_zero [82, 73, 70, 70]
    (44 + samples.length * 2) (40 + samples.length * 2)
    (by simp only [List.length_cons, List.length_nil] <;> omega)
    (by simp only [List.length_cons, List.length_nil] <;> omega)]
  rw [setBytes_replicate_step [82, 73, 70, 70] (u32le (36 + samples.length * 2))
    (40 + samples.length * 2) (36 + samples.length * 2) 4
    (by simp only [List.length_cons, List.length_nil] <;> omega)
    (by simp only [u32le, List.length_cons, List.length_nil] <;> omega)
    (by simp only [u32le, List.length_cons, List.length_nil] <;> omega)]
  rw [setBytes_replicate_step ([82, 73, 70, 70] ++ u32le (36 + samples.length * 2))
    [87, 65, 86, 69] (36 + samples.length * 2) (32 + samples.length * 2) 8
    (by simp only [u32le, List.length_append, List.length_cons, List.length_nil] <;> omega)
    (by simp only [List.length_cons, List.length_nil] <;> omega)
    (by simp only [List.length_cons, List.length_nil] <;> omega)]
  rw [setBytes_replicate_step (([82, 73, 70, 70] ++ u32le (36 + samples.length * 2)) ++
      [87, 65, 86, 69])
    [102, 109, 116, 32] (32 + samples.length * 2) (28 + samples.length * 2) 12
    (by simp only [u32le, List.length_append, List.length_cons, List.length_nil] <;> omega)
    (by simp only [List.length_cons, List.length_nil] <;> omega)
    (by simp only [List.length_cons, List.length_nil] <;> omega)]
  rw [setBytes_replicate_step ((([82, 73, 70, 70] ++ u32le (36 + samples.length * 2)) ++
      [87, 65, 86, 69]) ++ [102, 109, 116, 32])
    (u32le 16) (28 + samples.length * 2) (24 + samples.length * 2) 16
    (by simp only [u32le, List.length_append, List.length_cons, List.length_nil] <;> omega)
    (by simp only [u32le, List.length_cons, List.length_nil] <;> omega)
    (by simp only [u32le, List.length_cons, List.length_nil] <;> omega)]
  rw [setBytes_replicate_step (((([82, 73, 70, 70] ++ u32le (36 + samples.length * 2)) ++
      [87, 65, 86, 69]) ++ [102, 109, 116, 32]) ++ u32le 16)
    (u16le 1) (24 + samples.length * 2) (22 + samples.length * 2) 20
    (by simp only [u32le, u16le, List.length_append, List.length_cons, List.length_nil] <;> omega)
    (by simp only [u16le, List.length_cons, List.length_nil] <;> omega)
    (by simp only [u16le, List.length_cons, List.length_nil] <;> omega)]
  rw [setBytes_replicate_step ((((([82, 73, 70, 70] ++ u32le (36 + samples.length * 2)) ++
      [87, 65, 86, 69]) ++ [102, 109, 116, 32]) ++ u32le 16) ++ u16le 1)
    (u16le 1) (22 + samples.length * 2) (20 + samples.length * 2) 22
    (by simp only [u32le, u16le, List.length_append, List.length_cons, List.length_nil] <;> omega)
    (by simp only [u16le, List.length_cons, List.length_nil] <;> omega)
    (by simp only [u16le, List.length_cons, List.length_nil] <;> omega)]
  rw [setBytes_replicate_step (((((([82, 73, 70, 70] ++ u32le (36 + samples.length * 2)) ++
      [87, 65, 86, 69]) ++ [102, 109, 116, 32]) ++ u32le 16) ++ u16le 1) ++ u16le 1)
    (u32le sampleRate) (20 + samples.length * 2) (16 + samples.length * 2) 24
    (by simp only [u32le, u16le, List.length_append, List.length_cons, List.length_nil] <;> omega)
    (by simp only [u32le, List.length_cons, List.length_nil] <;> omega)
    (by simp only [u32le, List.length_cons, List.length_nil] <;> omega)]
  rw [setBytes_replicate_step ((((((([82, 73, 70, 70] ++ u32le (36 + samples.length * 2)) ++
      [87, 65, 86, 69]) ++ [102, 109, 116, 32]) ++ u32le 16) ++ u16le 1) ++ u16le 1) ++
      u32le sampleRate)
    (u32le (sampleRate * 2)) (16 + samples.length * 2) (12 + samples.length * 2) 28
    (by simp only [u32le, u16le, List.length_append, List.length_cons, List.length_nil] <;> omega)
    (by simp only [u32le, List.length_cons, List.length_nil] <;> omega)
    (by simp only [u32le, List.length_cons, List.length_nil] <;> omega)]
  rw [setBytes_replicate_step (((((((([82, 73, 70, 70] ++ u32le (36 + samples.length * 2)) ++
      [87, 65, 86, 69]) ++ [102, 109, 116, 32]) ++ u32le 16) ++ u16le 1) ++ u16le 1) ++
      u32le sampleRate) ++ u32le (sampleRate * 2))
    (u16le 2) (12 + samples.length * 2) (10 + samples.length * 2) 32
    (by simp only [u32le, u16le, List.length_append, List.length_cons, List.length_nil] <;> omega)
    (by simp only [u16le, List.length_cons, List.length_nil] <;> omega)
    (by simp only [u16le, List.length_cons, List.length_nil] <;> omega)]
  rw [setBytes_replicate_step ((((((((([82, 73, 70, 70] ++ u32le (36 + samples.length * 2)) ++
      [87, 65, 86, 69]) ++ [102, 109, 116, 32]) ++ u32le 16) ++ u16le 1) ++ u16le 1) ++
      u32le sampleRate) ++ u32le (sampleRate * 2)) ++ u16le 2)
    (u16le 16) (10 + samples.length * 2) (8 + samples.length * 2) 34
    (by simp only [u32le, u16le, List.length_append, List.length_cons, List.length_nil] <;> omega)
    (by simp only [u16le, List.length_cons, List.length_nil] <;> omega)
    (by simp only [u16le, List.length_cons, List.length_nil] <;> omega)]
  rw [setBytes_replicate_step (((((((((([82, 73, 70, 70] ++ u32le (36 + samples.length * 2)) ++
      [87, 65, 86, 69]) ++ [102, 109, 116, 32]) ++ u32le 16) ++ u16le 1) ++ u16le 1) ++
      u32le sampleRate) ++ u32le (sampleRate * 2)) ++ u16le 2) ++ u16le 16)
    [100, 97, 116, 97] (8 + samples.length * 2) (4 + samples.length * 2) 36
    (by simp only [u32le, u16le, List.length_append, List.length_cons, List.length_nil] <;> omega)
    (by simp only [List.length_cons, List.length_nil] <;> omega)
    (by simp only [List.length_cons, List.length_nil] <;> omega)]
  rw [setBytes_replicate_step ((((((((((([82, 73, 70, 70] ++ u32le (36 + samples.length * 2)) ++
      [87, 65, 86, 69]) ++ [102, 109, 116, 32]) ++ u32le 16) ++ u16le 1) ++ u16le 1) ++
      u32le sampleRate) ++ u32le (sampleRate * 2)) ++ u16le 2) ++ u16le 16) ++
      [100, 97, 116, 97])
    (u32le (samples.length * 2)) (4 + samples.length * 2) (samples.length * 2) 40
    (by simp only [u32le, u16le, List.length_append, List.length_cons, List.length_nil] <;> omega)
    (by simp only [u32le, List.length_cons, List.length_nil] <;> omega)
    (by simp only [u32le, List.length_cons, List.length_nil] <;> omega)]
  rw [wavSampleLoop_spec samples (((((((((((([82, 73, 70, 70] ++
      u32le (36 + samples.length * 2)) ++
      [87, 65, 86, 69]) ++ [102, 109, 116, 32]) ++ u32le 16) ++ u16le 1) ++ u16le 1) ++
      u32le sampleRate) ++ u32le (sampleRate * 2)) ++ u16le 2) ++ u16le 16) ++
      [100, 97, 116, 97]) ++ u32le (samples.length * 2)) 44
    (by simp only [u32le, u16le, List.length_append, List.length_cons, List.length_nil] <;> omega)]
  rw [encodeWAVSpecTrunc,
    show (fun s => i16le (jsTrunc (wavClamp s * 32767))) = wavSampleBytes from rfl]
  simp [wavHeaderSpec, List.append_assoc]

/-! ## Claim theorems -/

/-- C7: the peak index sequence returned by the detector is strictly
increasing and adjacent accepted peaks are separated by more than
`minDistance`. -/
theorem peaks_strictly_increasing_spaced (sampleRate : ℕ) (data : List ℚ) :
    List.Chain' (fun a b => a < b ∧ minDistance sampleRate < b - a)
      (findPeaks sampleRate data) :=
  findPeaks_chain sampleRate data

/-- C6: the peak scan runs over indices `1 .. n-2` and an index qualifies as
a candidate exactly when the three strict comparisons
`data[i] > data[i-1]`, `data[i] > data[i+1]`, `data[i] > 0.01` hold (the
scan equals the minimum-spacing acceptance fold over precisely the indices
passing that filter), and for inputs with fewer than 3 samples the detector
returns the empty sequence. -/
theorem peak_candidate_rule (sampleRate : ℕ) (data : List ℚ) :
    (data.length < 3 → findPeaks sampleRate data = []) ∧
    findPeaks sampleRate data =
      ((List.range' 1 (data.length - 1 - 1)).filter
        (fun i => decide (data.getD i 0 > data.getD (i - 1) 0 ∧
          data.getD i 0 > data.getD (i + 1) 0 ∧ data.getD i 0 > 1/100))).foldl
        (acceptStep (minDistance sampleRate)) [] := by
  constructor
  · intro h3
    rw [findPeaks]
    have hz : data.length - 1 - 1 = 0 := by omega
    rw [hz]
    rfl
  · rw [findPeaks]
    have hf : peakStep data (minDistance sampleRate) = fun acc i =>
        if (decide (data.getD i 0 > data.getD (i - 1) 0 ∧
          data.getD i 0 > data.getD (i + 1) 0 ∧ data.getD i 0 > 1/100)) then
          acceptStep (minDistance sampleRate) acc i
        else acc := by
      funext acc i
      simp [peakStep, threshold]
    rw [hf, foldl_ite_filter]

/-- Witness for C6: a two-sample input is below the three-sample minimum and
yields no peaks. -/
theorem peak_candidate_rule_witness : findPeaks 44100 [(0 : ℚ), 1] = [] :=
  (peak_candidate_rule 44100 [0, 1]).1 (by decide)

/-- C4: for every peak index sequence of length at least 2, the rate
estimator produces `round(60 * sampleRate / avgInterval)` where
`avgInterval` is the arithmetic mean of the consecutive index differences
`peaks[k] - peaks[k-1]`. -/
theorem rate_estimator_interval_formula (sampleRate : ℕ) (peaks : List ℕ)
    (h : 2 ≤ peaks.length) :
    rawBpmOf sampleRate peaks =
      jsRound ((60 * (sampleRate : ℚ)) /
        ((List.zipWith (fun a b : ℕ => ((b : ℚ) - (a : ℚ))) peaks peaks.tail).sum /
          ((peaks.length - 1 : ℕ) : ℚ))) := by
  rw [rawBpmOf, avgIntervalOf, intervals_length, intervalsOf_eq_zipWith, zip_sum_cast]

/-- Witness for C4 at `sampleRate = 6000` and `peaks = [0, 100]`. -/
theorem rate_estimator_interval_formula_witness :
    rawBpmOf 6000 [0, 100] =
      jsRound ((60 * ((6000 : ℕ) : ℚ)) /
        ((List.zipWith (fun a b : ℕ => ((b : ℚ) - (a : ℚ))) [0, 100]
            ([0, 100] : List ℕ).tail).sum /
          ((([0, 100] : List ℕ).length - 1 : ℕ) : ℚ))) :=
  rate_estimator_interval_formula 6000 [0, 100] (by decide)

/-- C10: the consecutive peak intervals fed to the rate estimator are all
strictly positive, their arithmetic mean is strictly positive whenever at
least two peaks exist, and the division-guarded pipeline never takes its
division-by-zero error branch. -/
theorem rate_estimator_no_div_zero (sampleRate : ℕ) (data : List ℚ) :
    (∀ x ∈ intervalsOf (findPeaks sampleRate (bandpassFilter data)), 0 < x) ∧
    (2 ≤ (findPeaks sampleRate (bandpassFilter data)).length →
      0 < avgIntervalOf (findPeaks sampleRate (bandpassFilter data))) ∧
    (okResult (detectHeartRate sampleRate data)).isSome = true := by
  have hchain := findPeaks_chain sampleRate (bandpassFilter data)
  have hlt : List.Chain' (· < ·) (findPeaks sampleRate (bandpassFilter data)) :=
    hchain.imp (fun a b hab => hab.1)
  have hpos : ∀ x ∈ intervalsOf (findPeaks sampleRate (bandpassFilter data)), 0 < x := by
    rw [intervalsOf_eq_zipWith]
    exact zipWith_sub_pos _ hlt
  have havg : 2 ≤ (findPeaks sampleRate (bandpassFilter data)).length →
      0 < avgIntervalOf (findPeaks sampleRate (bandpassFilter data)) := by
    intro h2
    rw [avgIntervalOf]
    apply div_pos
    · have hne : intervalsOf (findPeaks sampleRate (bandpassFilter data)) ≠ [] := by
        intro he
        have hl := intervals_length (findPeaks sampleRate (bandpassFilter data))
        rw [he] at hl
        simp at hl
        omega
      have hs : 0 < (intervalsOf (findPeaks sampleRate (bandpassFilter data))).sum :=
        List.sum_pos _ hpos hne
      exact_mod_cast hs
    · have hl : 0 < (intervalsOf (findPeaks sampleRate (bandpassFilter data))).length := by
        rw [intervals_length]
        omega
      exact_mod_cast hl
  refine ⟨hpos, havg, ?_⟩
  simp only [detectHeartRate]
  split
  · rfl
  case isFalse h2 =>
    split
    case isTrue hz =>
      have hgt := havg (by omega)
      rw [hz] at hgt
      exact absurd hgt (lt_irrefl 0)
    · rfl

/-- Witness for C10: the pipeline succeeds on the empty input. -/
theorem rate_estimator_no_div_zero_witness :
    (okResult (detectHeartRate 44100 [])).isSome = true :=
  (rate_estimator_no_div_zero 44100 []).2.2

/-- Counterexample to C1 as stated: on the empty input (an
insufficient-rhythmic-content case) the pipeline returns `bpm = 0`, which
is not in `[40, 200]`. -/
theorem detect_bpm_range_counterexample :
    okResult (detectHeartRate 44100 []) = some ⟨0, Confidence.low, [], none⟩ ∧
    ¬ (40 ≤ (0 : ℤ) ∧ (0 : ℤ) ≤ 200) :=
  ⟨rfl, by decide⟩

/-- C1 amended: every successful pipeline result has `bpm` in `[40, 200]`
except on the insufficient-rhythmic-content path, where `bpm = 0` (with an
empty peak list). -/
theorem detect_bpm_range_amended (sampleRate : ℕ) (data : List ℚ) (r : DetectionResult)
    (h : detectHeartRate sampleRate data = Except.ok r) :
    (r.bpm = 0 ∧ r.peaks = []) ∨ (40 ≤ r.bpm ∧ r.bpm ≤ 200) := by
  simp only [detectHeartRate] at h
  split at h
  · left
    injection h with h2
    rw [← h2]
    exact ⟨rfl, rfl⟩
  · split at h
    · exact absurd h (by simp)
    · right
      injection h with h2
      rw [← h2]
      exact ⟨le_max_left 40 _, max_le (by norm_num) (min_le_left 200 _)⟩

/-- Witness for the amended C1 at the empty input. -/
theorem detect_bpm_range_amended_witness :
    ((0 : ℤ) = 0 ∧ ([] : List ℕ) = []) ∨ (40 ≤ (0 : ℤ) ∧ (0 : ℤ) ≤ 200) :=
  detect_bpm_range_amended 44100 [] ⟨0, Confidence.low, [], none⟩ rfl

/-- Counterexample to C3 as stated: on an input with fewer than 2 peaks the
returned record's `waveform` field is absent (`none`), not the filtered
waveform the claim requires. -/
theorem insufficient_peaks_waveform_counterexample :
    okResult (detectHeartRate 44100 []) = some ⟨0, Confidence.low, [], none⟩ ∧
    (none : Option (List ℚ)) ≠ some (bandpassFilter []) :=
  ⟨rfl, by decide⟩

/-- C3 amended: whenever the peak count is below 2, the pipeline returns
`{ bpm: 0, confidence: low, peaks: [] }` with no waveform field, rather
than failing. -/
theorem insufficient_peaks_result_amended (sampleRate : ℕ) (data : List ℚ)
    (h : (findPeaks sampleRate (bandpassFilter data)).length < 2) :
    detectHeartRate sampleRate data = Except.ok ⟨0, Confidence.low, [], none⟩ := by
  simp only [detectHeartRate]
  rw [if_pos h]

/-- Witness for the amended C3 at the empty input. -/
theorem insufficient_peaks_result_amended_witness :
    detectHeartRate 44100 [] = Except.ok ⟨0, Confidence.low, [], none⟩ :=
  insufficient_peaks_result_amended 44100 [] (by decide)

/-- Counterexample to C9 as stated: at the sample `1/2` the value
`clamp(1/2) * 32767 = 16383.5` is stored as `16383` (JS `setInt16`
truncates toward zero), not as `round(16383.5) = 16384`, so the encoder
output differs from the claim's round-based layout. -/
theorem encodeWAV_round_counterexample :
    encodeWAV [(1 : ℚ)/2] 8000 ≠ encodeWAVSpecRound [(1 : ℚ)/2] 8000 := by
  have hcl : wavClamp ((1 : ℚ)/2) = 1/2 := by
    rw [wavClamp, min_eq_right (by norm_num : (1 : ℚ)/2 ≤ 1),
      max_eq_right (by norm_num : (-1 : ℚ) ≤ 1/2)]
  have htr : jsTrunc (wavClamp ((1 : ℚ)/2) * 32767) = 16383 := by
    rw [hcl, jsTrunc, if_neg (by norm_num : ¬((1 : ℚ)/2 * 32767 < 0)), Int.floor_eq_iff]
    constructor <;> norm_num
  have hro : jsRound (wavClamp ((1 : ℚ)/2) * 32767) = 16384 := by
    rw [hcl, jsRound, Int.floor_eq_iff]
    constructor <;> norm_num
  intro heq
  rw [encodeWAV_eq_spec] at heq
  simp only [encodeWAVSpecTrunc, encodeWAVSpecRound] at heq
  have h2 := List.append_cancel_left heq
  simp only [List.flatMap_cons, List.flatMap_nil, List.append_nil, htr, hro, i16le] at h2
  exact absurd h2 (by decide)

/-- C9 amended: the debug WAV encoder produces the 44-byte header (`RIFF`
size tag, `WAVE`, `fmt ` sub-chunk for mono PCM at the given rate, 16-bit
depth, `data` sub-chunk) followed by one little-endian 16-bit integer per
sample, computed as `int16 = truncate(clamp(sample, -1, 1) * 32767)` with
truncation toward zero rather than the claimed rounding. -/
theorem encodeWAV_layout_amended (samples : List ℚ) (sampleRate : ℕ) :
    encodeWAV samples sampleRate = encodeWAVSpecTrunc samples sampleRate :=
  encodeWAV_eq_spec samples sampleRate

/-- C5: for every normalized signal of length `n` and window half-width `W`,
the smoothing filter outputs a signal of exactly length `n` whose value at
each index `i` is the arithmetic mean of the input samples with indices in
`[max(0, i-W), min(n-1, i+W)]` (natural subtraction `i - W` equals
`max(0, i-W)`), the divisor being the count of samples actually in that
truncated window. -/
theorem smoothing_filter_window_mean (W : ℕ) (xs : List ℚ) :
    (smoothLoop W xs).length = xs.length ∧
    ∀ i, i < xs.length →
      (smoothLoop W xs).getD i 0 =
        (∑ j in Finset.Icc (i - W) (min (xs.length - 1) (i + W)), xs.getD j 0) /
          ((Finset.Icc (i - W) (min (xs.length - 1) (i + W))).card : ℚ) :=
  ⟨smoothLoop_length W xs, fun i hi => smoothLoop_getD W xs i hi⟩

/-- Witness for C5 at `W = 1`, input `[0, 1]`, index `0`. -/
theorem smoothing_filter_window_mean_witness :
    (smoothLoop 1 [(0 : ℚ), 1]).length = [(0 : ℚ), 1].length ∧
    (smoothLoop 1 [(0 : ℚ), 1]).getD 0 0 =
      (∑ j in Finset.Icc (0 - 1) (min ([(0 : ℚ), 1].length - 1) (0 + 1)),
          [(0 : ℚ), 1].getD j 0) /
        ((Finset.Icc (0 - 1) (min ([(0 : ℚ), 1].length - 1) (0 + 1))).card : ℚ) :=
  ⟨(smoothing_filter_window_mean 1 [0, 1]).1,
   (smoothing_filter_window_mean 1 [0, 1]).2 0 (by decide)⟩

/-- C8: every element of the smoothing filter's output lies within any
interval `[m, M]` that contains all input values; in particular, with
`m = min(NormalizedSignal)` and `M = max(NormalizedSignal)`, averaging
never overshoots the range of the input values. -/
theorem smoothing_filter_range_bound (W : ℕ) (xs : List ℚ) (m M : ℚ)
    (h1 : ∀ v ∈ xs, m ≤ v) (h2 : ∀ v ∈ xs, v ≤ M) :
    ∀ i, i < xs.length →
      m ≤ (smoothLoop W xs).getD i 0 ∧ (smoothLoop W xs).getD i 0 ≤ M := by
  intro i hlen
  rw [smoothLoop_getD W xs i hlen]
  obtain ⟨hlo, hup⟩ := smooth_window_bounds W xs i hlen
  have hupbound : min (xs.length - 1) (i + W) ≤ xs.length - 1 := min_le_left _ _
  have hmem : ∀ j ∈ Finset.Icc (i - W) (min (xs.length - 1) (i + W)), xs.getD j 0 ∈ xs := by
    intro j hj
    have hj2 : j ≤ min (xs.length - 1) (i + W) := (Finset.mem_Icc.mp hj).2
    have hj3 : j < xs.length := by omega
    rw [List.getD_eq_getElem _ _ hj3]
    exact List.getElem_mem _
  have hcard : 0 < (Finset.Icc (i - W) (min (xs.length - 1) (i + W))).card := by
    rw [Nat.card_Icc]; omega
  have hcardQ : (0 : ℚ) <
      ((Finset.Icc (i - W) (min (xs.length - 1) (i + W))).card : ℚ) := by
    exact_mod_cast hcard
  constructor
  · rw [le_div_iff₀ hcardQ]
    calc m * ((Finset.Icc (i - W) (min (xs.length - 1) (i + W))).card : ℚ)
        = (Finset.Icc (i - W) (min (xs.length - 1) (i + W))).card • m := by
          rw [nsmul_eq_mul, mul_comm]
      _ ≤ ∑ j in Finset.Icc (i - W) (min (xs.length - 1) (i + W)), xs.getD j 0 :=
          Finset.card_nsmul_le_sum _ _ _ (fun j hj => h1 _ (hmem j hj))
  · rw [div_le_iff₀ hcardQ]
    calc ∑ j in Finset.Icc (i - W) (min (xs.length - 1) (i + W)), xs.getD j 0
        ≤ (Finset.Icc (i - W) (min (xs.length - 1) (i + W))).card • M :=
          Finset.sum_le_card_nsmul _ _ _ (fun j hj => h2 _ (hmem j hj))
      _ = M * ((Finset.Icc (i - W) (min (xs.length - 1) (i + W))).card : ℚ) := by
          rw [nsmul_eq_mul, mul_comm]

/-- Witness for C8 at `W = 1`, input `[0, 1]`, bounds `[0, 1]`, index `0`. -/
theorem smoothing_filter_range_bound_witness :
    0 ≤ (smoothLoop 1 [(0 : ℚ), 1]).getD 0 0 ∧ (smoothLoop 1 [(0 : ℚ), 1]).getD 0 0 ≤ 1 :=
  smoothing_filter_range_bound 1 [0, 1] 0 1 (by norm_num) (by norm_num) 0 (by decide)

/-- C2: the unsigned 8-bit normalizer maps every sample `raw[i]` in 0..255
to `(raw[i] - 128) / 128`, the float normalizer passes every sample already
in `[-1, 1]` through unchanged, and for both recognized encodings the
normalized output lies in `[-1, 1]` and has the same length as the input. -/
theorem normalizer_maps_and_preserves (u8 : List ℕ) (fl : List ℚ)
    (h8 : ∀ v ∈ u8, v ≤ 255) (hf : ∀ v ∈ fl, -1 ≤ v ∧ v ≤ 1) :
    (normalizeU8 u8).length = u8.length ∧
    (∀ i, i < u8.length → (normalizeU8 u8).getD i 0 = ((u8.getD i 0 : ℚ) - 128) / 128) ∧
    (∀ y ∈ normalizeU8 u8, -1 ≤ y ∧ y ≤ 1) ∧
    (normalizeFloat fl).length = fl.length ∧
    normalizeFloat fl = fl ∧
    (∀ y ∈ normalizeFloat fl, -1 ≤ y ∧ y ≤ 1) := by
  refine ⟨by rw [normalizeU8, List.length_map], ?_, ?_,
    by rw [normalizeFloat, List.length_map], by rw [normalizeFloat, List.map_id'], ?_⟩
  · intro i hi
    have hi3 : i < (normalizeU8 u8).length := by rw [normalizeU8, List.length_map]; exact hi
    rw [List.getD_eq_getElem _ _ hi3, List.getD_eq_getElem _ _ hi]
    simp only [normalizeU8, List.getElem_map]
  · intro y hy
    rw [normalizeU8, List.mem_map] at hy
    obtain ⟨v, hv, rfl⟩ := hy
    have hv255 : (v : ℚ) ≤ 255 := by exact_mod_cast h8 v hv
    have hv0 : (0 : ℚ) ≤ (v : ℚ) := Nat.cast_nonneg v
    constructor
    · rw [le_div_iff₀ (by norm_num : (0 : ℚ) < 128)]
      linarith
    · rw [div_le_iff₀ (by norm_num : (0 : ℚ) < 128)]
      linarith
  · intro y hy
    rw [normalizeFloat, List.mem_map] at hy
    obtain ⟨v, hv, rfl⟩ := hy
    exact hf v hv

/-- Witness for C2 at the 8-bit input `[0, 128, 255]` and float input `[1]`. -/
theorem normalizer_maps_and_preserves_witness :
    (normalizeU8 [0, 128, 255]).getD 0 0 = ((([0, 128, 255] : List ℕ).getD 0 0 : ℚ) - 128) / 128 ∧
    normalizeFloat [(1 : ℚ)] = [(1 : ℚ)] :=
  ⟨(normalizer_maps_and_preserves [0, 128, 255] [1] (by decide) (by norm_num)).2.1 0 (by decide),
   (normalizer_maps_and_preserves [0, 128, 255] [1] (by decide) (by norm_num)).2.2.2.2.1⟩

end FreeKG
